import Mathlib

/-!
Verification of the state-change detection and notification pipeline of the
discord-agent-bridge repository.

Strings are modelled as `List Char` (JavaScript strings, compared as values).
Each definition is a shallow embedding of the corresponding TypeScript
function; functions that the repository ships only as documentation
(parser.ts / detector.ts, whose implementations are absent from the source
tree) are marked `Modelled from the spec:` in their doc comment.
-/

namespace Bridge

/-- Characters treated as whitespace by the JavaScript `\s` class, `trim`,
`trimStart` and `trimEnd` (the common code points; the rare Unicode space
separators are omitted — no result here depends on them). -/
def isJsWs (c : Char) : Bool :=
  c = ' ' ∨ c = '\t' ∨ c = '\n' ∨ c = '\r' ∨ c = '\x0b' ∨ c = '\x0c' ∨
  c = ' ' ∨ c = ' ' ∨ c = ' ' ∨ c = '﻿'

/-- JavaScript line terminators: the code points that `.` in a regex
without the `s` flag refuses to match. -/
def isLineTerm (c : Char) : Bool :=
  c = '\n' ∨ c = '\r' ∨ c = ' ' ∨ c = ' '

/-- `String.prototype.trim`. -/
def jsTrim (l : List Char) : List Char :=
  ((l.dropWhile isJsWs).reverse.dropWhile isJsWs).reverse

/-- `String.prototype.trimStart`. -/
def jsTrimStart (l : List Char) : List Char := l.dropWhile isJsWs

/-- `String.prototype.trimEnd`. -/
def jsTrimEnd (l : List Char) : List Char :=
  (l.reverse.dropWhile isJsWs).reverse

/-- `haystack.includes(needle)` on JavaScript strings: the needle occurs
contiguously somewhere in the haystack (the empty needle always occurs). -/
def containsSub (needle : List Char) : List Char → Bool
  | [] => needle.isPrefixOf []
  | c :: rest => needle.isPrefixOf (c :: rest) || containsSub needle rest

/-- `text.split('\n')` — the list of lines of a string; never empty, and an
input without `'\n'` yields the single-element list `[input]`. -/
def splitLines : List Char → List (List Char)
  | [] => [[]]
  | c :: cs =>
    if c = '\n' then [] :: splitLines cs
    else
      match splitLines cs with
      | [] => [[c]]
      | l :: ls => (c :: l) :: ls

/-- `lines.join('\n')` — inverse of `splitLines` on newline-free lines. -/
def joinLines : List (List Char) → List Char
  | [] => []
  | [l] => l
  | l :: ls => l ++ '\n' :: joinLines ls

/-- `array.slice(-n)` for `n > 0`: the last `n` elements (all of them when
`n` exceeds the length). -/
def takeLast (n : Nat) (l : List α) : List α := l.drop (l.length - n)

/-- Parameter characters of a CSI sequence: the `[0-9;]` class of
`ANSI_REGEX`. -/
def isCsiParam (c : Char) : Bool :=
  ('0' ≤ c ∧ c ≤ '9') ∨ c = ';'

/-- The `[A-Za-z]` class of `ANSI_REGEX` (final byte of a CSI sequence). -/
def isAsciiLetter (c : Char) : Bool :=
  ('A' ≤ c ∧ c ≤ 'Z') ∨ ('a' ≤ c ∧ c ≤ 'z')

/-- The `[A-Z]` class of `ANSI_REGEX` (charset designator). -/
def isAsciiUpper (c : Char) : Bool := 'A' ≤ c ∧ c ≤ 'Z'

/-- Lazy scan of an OSC body: the `.*?(?:\x07|\x1B\\)` part of
`ANSI_REGEX`. Returns the number of characters consumed (body plus
terminator) by the shortest match, or `none` when no terminator is found
before the end of input or a line terminator (`.` does not match those). -/
def oscScan : List Char → Option Nat
  | [] => none
  | c :: rest =>
    if c = '\x07' then some 1
    else if c = '\x1b' then
      match rest with
      | '\\' :: _ => some 2
      | _ => (oscScan rest).map (· + 1)
    else if isLineTerm c then none
    else (oscScan rest).map (· + 1)

/-- Match attempt of `ANSI_REGEX` at a position whose character is ESC:
given the characters after the ESC, returns how many of them the
alternation `\[[0-9;]*[A-Za-z]|\].*?(?:\x07|\x1B\\)|\([A-Z]` consumes, or
`none` when the regex does not match here. -/
def matchAnsiAfterEsc : List Char → Option Nat
  | '[' :: rest =>
    match rest.dropWhile isCsiParam with
    | c :: _ =>
      if isAsciiLetter c then some (1 + (rest.takeWhile isCsiParam).length + 1)
      else none
    | [] => none
  | ']' :: rest => (oscScan rest).map (· + 1)
  | '(' :: c :: _ => if isAsciiUpper c then some 2 else none
  | _ => none

/-- Recursion core of `stripAnsi`: structural in a fuel argument so that
the function reduces inside the kernel; every step consumes at least one
character, so fuel equal to the input length is never exhausted. -/
def stripAnsiGo : Nat → List Char → List Char
  | _, [] => []
  | 0, l => l
  | fuel + 1, c :: rest =>
    if c = '\x1b' then
      match matchAnsiAfterEsc rest with
      | some k => stripAnsiGo fuel (rest.drop k)
      | none => c :: stripAnsiGo fuel rest
    else c :: stripAnsiGo fuel rest

/-- Modelled from the spec: `stripAnsi` of the absent `capture/parser.ts`,
the single-pass global replacement
`text.replace(/\x1B(?:\[[0-9;]*[A-Za-z]|\].*?(?:\x07|\x1B\\)|\([A-Z])/g, '')`
given in ARCHITECTURE.md §4.4. The scan moves left to right; a match is
deleted and scanning resumes after it (deleted regions are never
re-examined, exactly like `String.replace` with a global regex). -/
def stripAnsi (l : List Char) : List Char := stripAnsiGo l.length l

/-- Drop the trailing empty lines of a line list (the `후행 빈 줄 제거` step
of `cleanCapture`). -/
def dropTrailingEmptyLines (ls : List (List Char)) : List (List Char) :=
  (ls.reverse.dropWhile (fun l => l.isEmpty)).reverse

/-- Remove the trailing blank lines of a string: split, drop trailing
empty lines, re-join. -/
def trimTrailingEmpty (s : List Char) : List Char :=
  joinLines (dropTrailingEmptyLines (splitLines s))

/-- Modelled from the spec: `cleanCapture` of the absent
`capture/parser.ts` — `stripAnsi` followed by removal of trailing blank
lines (ARCHITECTURE.md §3.3.3, spec §4.1 `normalize`). -/
def cleanCapture (raw : List Char) : List Char :=
  trimTrailingEmpty (stripAnsi raw)

/-- The three agent classifications of `detector.ts`. -/
inductive AgentState where
  | working
  | stopped
  | offline
deriving DecidableEq, Repr

/-- Modelled from the spec: `detectState` of the absent
`capture/detector.ts`, whose full body is reproduced in ARCHITECTURE.md
§3.3.2 (spec §4.2). -/
def detectState (current : Option (List Char)) (previous : Option (List Char))
    (_stableCount : Int) : AgentState :=
  match current with
  | none => AgentState.offline
  | some cur =>
    match previous with
    | none => AgentState.working
    | some prev =>
      if cur ≠ prev then AgentState.working else AgentState.stopped

/-- One step of the greedy line-packing loop of `splitForDiscord`
(ARCHITECTURE.md §4.5): state is `(chunks, current)`; JavaScript truthiness
of `current` is `current ≠ []`. -/
def sfdStep (maxLen : Nat) (st : List (List Char) × List Char) (line : List Char) :
    List (List Char) × List Char :=
  let (chunks, current) := st
  if current.length + line.length + 1 > maxLen then
    (chunks ++ (if current = [] then [] else [current]), line)
  else
    (chunks, if current = [] then line else current ++ '\n' :: line)

/-- Modelled from the spec: `splitForDiscord` of the absent
`capture/parser.ts`, whose full body is reproduced in ARCHITECTURE.md §4.5
(spec §4.1 `splitForDelivery`): short text is returned as a single chunk,
otherwise lines are greedily packed into chunks of joined length at most
`maxLen`, and a final non-empty `current` is flushed. -/
def splitForDiscord (text : List Char) (maxLen : Nat := 1900) : List (List Char) :=
  if text.length ≤ maxLen then [text]
  else
    let st := (splitLines text).foldl (sfdStep maxLen) ([], [])
    st.1 ++ (if st.2 = [] then [] else [st.2])

/-- The lines delivered across a chunk sequence, in order. -/
def chunkLines (chunks : List (List Char)) : List (List Char) :=
  (chunks.map splitLines).flatten

/-- The lines already committed by a `splitForDiscord` loop state: the
lines of the finished chunks followed by the lines of the pending
`current` chunk (none when `current` is the empty string). -/
def sfdOut (st : List (List Char) × List Char) : List (List Char) :=
  chunkLines st.1 ++ (if st.2 = [] then [] else splitLines st.2)

/-- Per-target poll state of `capture/poller.ts` (`PollState`). -/
structure PollState where
  previousCapture : Option (List Char)
  lastReportedCapture : Option (List Char)
  stableCount : Int
  notifiedWorking : Bool
deriving DecidableEq, Repr

/-- `defaultPollState()` of `capture/poller.ts`. -/
def defaultPollState : PollState :=
  { previousCapture := none
    lastReportedCapture := none
    stableCount := 0
    notifiedWorking := false }

/-- A notification sent to the target's Discord channel, classified by the
three sends of `CapturePoller.pollAgent`: the `'⚡ 작업 중...'` working
notice, the `'⏹️ 세션 종료됨'` session-ended notice, and one `chunk` per
element of the `splitForDiscord` output of the completion message. -/
inductive Notice where
  | working
  | sessionEnded
  | chunk (content : List Char)
deriving DecidableEq, Repr

/-- The completion message built by `pollAgent`:
`` `💬 **완료**\n\`\`\`\n${content}\n\`\`\`` ``. -/
def completedMsg (content : List Char) : List Char :=
  "💬 **완료**\n```\n".toList ++ content ++ "\n```".toList

/-- One poll tick of one target, after the channel lookup: the body of
`CapturePoller.pollAgent` (capture/poller.ts lines 87–137). `raw = none`
models `capturePaneFromWindow` throwing (session or window gone). Returns
the updated state and the notifications sent to the channel, in order.
The `onAgentComplete` / `onAgentStopped` hooks are not channel
notifications and are not recorded. -/
def tick (st : PollState) (raw : Option (List Char)) : PollState × List Notice :=
  match raw with
  | none =>
    if st.notifiedWorking then
      ({ st with notifiedWorking := false }, [Notice.sessionEnded])
    else (st, [])
  | some rawCapture =>
    let capture := cleanCapture rawCapture
    let agentState := detectState (some capture) st.previousCapture st.stableCount
    if agentState = AgentState.working then
      let st1 := { st with stableCount := 0, previousCapture := some capture }
      if st1.notifiedWorking then (st1, [])
      else ({ st1 with notifiedWorking := true }, [Notice.working])
    else
      let st1 := { st with stableCount := st.stableCount + 1, previousCapture := some capture }
      if st1.stableCount = 1 ∧ st1.notifiedWorking then
        let content := jsTrim capture
        let msgs :=
          if content ≠ [] ∧ st1.lastReportedCapture ≠ some content then
            (splitForDiscord (completedMsg content)).map Notice.chunk
          else []
        ({ st1 with lastReportedCapture := some capture, notifiedWorking := false }, msgs)
      else (st1, [])

/-- The classification computed on a tick (`detectState(capture,
state.previousCapture, state.stableCount)`, with a failed capture standing
for an absent current snapshot). -/
def tickClass (st : PollState) (raw : Option (List Char)) : AgentState :=
  detectState (raw.map cleanCapture) st.previousCapture st.stableCount

/-- A sequence of poll ticks of one target: threads the state and
concatenates the notification traces. -/
def run (st : PollState) : List (Option (List Char)) → PollState × List Notice
  | [] => (st, [])
  | r :: rs =>
    let t := tick st r
    let rest := run t.1 rs
    (rest.1, t.2 ++ rest.2)

/-- The per-project fields of the state file that `CapturePoller.pollAll`
reads: `Object.entries(project.agents)` as an association list, the
`eventHooks` flags and the `discordChannels` map. -/
structure ProjectStateM where
  projectName : List Char
  agents : List (List Char × Bool)
  eventHooks : List Char → Bool
  discordChannels : List Char → Option (List Char)

/-- `CapturePoller.pollAll` (capture/poller.ts lines 62–77): enumerate
every project and agent entry, skip disabled agents and agents flagged for
event-hook delivery, and run each remaining target's poll inside its own
try/catch — a per-target outcome is an `Except`, `Except.error` standing
for a caught-and-logged exception, and the loop records every eligible
target's outcome regardless of the outcomes of the targets before it. -/
def pollAll (projects : List ProjectStateM)
    (pollAgent : List Char → List Char → Except Unit (List Notice)) :
    List (List Char × List Char × Except Unit (List Notice)) :=
  projects.flatMap fun p =>
    p.agents.filterMap fun e =>
      if !e.2 then none
      else if p.eventHooks e.1 then none
      else some (p.projectName, e.1, pollAgent p.projectName e.1)

/-- The channel guard at the top of `pollAgent` (capture/poller.ts lines
84–85): a target with no configured channel id returns before capturing,
sending nothing and leaving the poll state unchanged. -/
def pollAgentTick (p : ProjectStateM) (agentType : List Char) (st : PollState)
    (raw : Option (List Char)) : PollState × List Notice :=
  match p.discordChannels agentType with
  | none => (st, [])
  | some _ => tick st raw

/-- Environment-derived knobs of `CodexSubmitter.submit`
(`getEnvInt` may return any integer, including a negative one). -/
structure SubmitConfig where
  submitDelayMs : Int
  checkDelayMs : Int
  retryDelayMs : Int
  retries : Int
  checkLines : Int

/-- The defaults of `CodexSubmitter.submit`: 75 / 150 / 250 ms, 4 retries,
120 check lines. -/
def defaultSubmitConfig : SubmitConfig :=
  { submitDelayMs := 75, checkDelayMs := 150, retryDelayMs := 250
    retries := 4, checkLines := 120 }

/-- The tmux calls and sleeps that `CodexSubmitter.submit` issues, in
order. -/
inductive TmuxAction where
  | typeKeys (text : List Char)
  | sendEnter
  | capturePane
  | sleep (ms : Int)
deriving DecidableEq, Repr

/-- `CodexSubmitter.isSlashCommand`: starts with `'/'` after
`trimStart`. -/
def isSlashCommand (prompt : List Char) : Bool :=
  ['/'].isPrefixOf (jsTrimStart prompt)

/-- Recursion core of `collapseWs`, structural in a fuel argument so that
it reduces inside the kernel; every step consumes at least one character. -/
def collapseWsGo : Nat → List Char → List Char
  | _, [] => []
  | 0, l => l
  | fuel + 1, c :: cs =>
    if isJsWs c then ' ' :: collapseWsGo fuel (cs.dropWhile isJsWs)
    else c :: collapseWsGo fuel cs

/-- The `replace(/\s+/g, ' ')` step of `CodexSubmitter.promptPrefix`:
collapse each whitespace run to a single space. -/
def collapseWs (l : List Char) : List Char := collapseWsGo l.length l

/-- The fuzzy needle used by the acceptance checks: `promptPrefix` of
`CodexSubmitter`. -/
def promptNeedle (prompt : List Char) : List Char :=
  (collapseWs (jsTrim prompt)).take 32

/-- `CodexSubmitter.tailLines`: the last `Math.max(minLines, checkLines)`
lines of the cleaned capture. -/
def submitTailLines (cfg : SubmitConfig) (capture : List Char) (minLines : Nat) :
    List (List Char) :=
  takeLast (max (minLines : Int) cfg.checkLines).toNat (splitLines (cleanCapture capture))

/-- `CodexSubmitter.captureShowsSubmittedPrompt`: some tail line starts
(after `trimStart`) with the `›` echo marker and contains the needle. -/
def captureShowsSubmittedPrompt (cfg : SubmitConfig) (capture prompt : List Char) : Bool :=
  let pfx := promptNeedle prompt
  (submitTailLines cfg capture 20).any fun line =>
    let l := jsTrimStart line
    ['›'].isPrefixOf l && containsSub pfx l

/-- `CodexSubmitter.captureContainsNeedle`: the needle occurs in some tail
line (an empty needle never counts). -/
def captureContainsNeedle (cfg : SubmitConfig) (capture prompt : List Char) : Bool :=
  let needle := promptNeedle prompt
  if needle = [] then false
  else (submitTailLines cfg capture 20).any fun line => containsSub needle line

/-- The Enter-only retry loop of `CodexSubmitter.submit` (lines 469–480):
each iteration presses Enter, sleeps the retry delay, captures (`captures
idx` is the result of the `idx`-th capture call of the whole submit), and
re-evaluates; it stops at the first accepted check or after the fuel runs
out. -/
def submitRetryLoop (cfg : SubmitConfig) (trimmed : List Char) (isSlash : Bool)
    (captures : Nat → List Char) : Nat → Nat → Bool × List TmuxAction
  | _, 0 => (false, [])
  | idx, n + 1 =>
    let acts := [TmuxAction.sendEnter, TmuxAction.sleep cfg.retryDelayMs, TmuxAction.capturePane]
    let after := captures idx
    let ok :=
      if isSlash then !(captureContainsNeedle cfg after trimmed)
      else captureShowsSubmittedPrompt cfg after trimmed
    if ok then (true, acts)
    else
      let r := submitRetryLoop cfg trimmed isSlash captures (idx + 1) n
      (r.1, acts ++ r.2)

/-- `CodexSubmitter.submit` (the implementation shipped in the repository,
`submit(tmuxSession, prompt)` with the fixed `codex` window). The `n`-th
call of `capturePaneFromWindow` returns `captures n`; the returned action
list records every tmux call and sleep, in order. -/
def submitModel (cfg : SubmitConfig) (prompt : List Char) (captures : Nat → List Char) :
    Bool × List TmuxAction :=
  let trimmed := jsTrimEnd prompt
  let isSlash := isSlashCommand trimmed
  let base := [TmuxAction.typeKeys trimmed, TmuxAction.sleep cfg.submitDelayMs]
  let typedCapture := if isSlash then captures 0 else []
  let idx0 : Nat := if isSlash then 1 else 0
  let preActs := base ++ (if isSlash then [TmuxAction.capturePane] else []) ++
    [TmuxAction.sendEnter, TmuxAction.sleep cfg.checkDelayMs, TmuxAction.capturePane]
  let after := captures idx0
  let firstOk :=
    if isSlash then
      let typedHad := if typedCapture = [] then false
                      else captureContainsNeedle cfg typedCapture trimmed
      let afterHas := captureContainsNeedle cfg after trimmed
      (typedHad && !afterHas) || !afterHas
    else captureShowsSubmittedPrompt cfg after trimmed
  if firstOk then (true, preActs)
  else
    let r := submitRetryLoop cfg trimmed isSlash captures (idx0 + 1) cfg.retries.toNat
    (r.1, preActs ++ r.2)

/-- The acceptance check that `submitModel` evaluates on attempt `i`
(attempt 0 is the check after the first Enter, attempt `i ≥ 1` is the
`i`-th retry), expressed directly on the capture oracle. -/
def attemptAccepted (cfg : SubmitConfig) (prompt : List Char) (captures : Nat → List Char)
    (i : Nat) : Bool :=
  let trimmed := jsTrimEnd prompt
  let isSlash := isSlashCommand trimmed
  let idx0 : Nat := if isSlash then 1 else 0
  let after := captures (idx0 + i)
  if isSlash then
    if i = 0 then
      let typedCapture := captures 0
      let typedHad := if typedCapture = [] then false
                      else captureContainsNeedle cfg typedCapture trimmed
      let afterHas := captureContainsNeedle cfg after trimmed
      (typedHad && !afterHas) || !afterHas
    else !(captureContainsNeedle cfg (captures (idx0 + i)) trimmed)
  else captureShowsSubmittedPrompt cfg after trimmed

/-- The actions of `submitModel` before any retry: type, settle, (slash
only: baseline capture), Enter, check delay, capture. -/
def submitPreActs (cfg : SubmitConfig) (prompt : List Char) : List TmuxAction :=
  let trimmed := jsTrimEnd prompt
  [TmuxAction.typeKeys trimmed, TmuxAction.sleep cfg.submitDelayMs] ++
    (if isSlashCommand trimmed then [TmuxAction.capturePane] else []) ++
    [TmuxAction.sendEnter, TmuxAction.sleep cfg.checkDelayMs, TmuxAction.capturePane]

/-- The actions of one executed retry iteration. -/
def retryBlock (cfg : SubmitConfig) : List TmuxAction :=
  [TmuxAction.sendEnter, TmuxAction.sleep cfg.retryDelayMs, TmuxAction.capturePane]

/-- The acceptance check evaluated by one retry iteration, on the capture
with index `m`. -/
def retryCheck (cfg : SubmitConfig) (trimmed : List Char) (isSlash : Bool)
    (captures : Nat → List Char) (m : Nat) : Bool :=
  if isSlash then !(captureContainsNeedle cfg (captures m) trimmed)
  else captureShowsSubmittedPrompt cfg (captures m) trimmed

/-- Recognizer for `typeKeysToWindow` actions. -/
def isTypeKeysAct : TmuxAction → Bool
  | TmuxAction.typeKeys _ => true
  | _ => false

/-- Recognizer for `sendEnterToWindow` actions. -/
def isEnterAct : TmuxAction → Bool
  | TmuxAction.sendEnter => true
  | _ => false

/-- `AgentBridge.sanitizeInput` (src/index.ts lines 61–76): reject empty
or whitespace-only input and input longer than 10000 characters, strip
null bytes from the rest. -/
def sanitizeInput (content : List Char) : Option (List Char) :=
  if content = [] ∨ (jsTrim content).length = 0 then none
  else if content.length > 10000 then none
  else some (content.filter fun c => c ≠ '\x00')

/-! ## Theorems -/

/-! ### Line-splitting toolkit -/

/-- `splitLines` never returns the empty list. -/
theorem splitLines_ne_nil (t : List Char) : splitLines t ≠ [] := by
  induction t with
  | nil => simp [splitLines]
  | cons c cs ih =>
    by_cases h : c = '\n'
    · simp [splitLines, h]
    · simp only [splitLines, if_neg h]
      cases splitLines cs <;> simp

/-- A newline-free string is its own single line. -/
theorem splitLines_no_newline {l : List Char} (h : '\n' ∉ l) : splitLines l = [l] := by
  induction l with
  | nil => rfl
  | cons c cs ih =>
    have hc : ¬c = '\n' := fun hEq => h (hEq ▸ List.mem_cons_self c cs)
    have hcs : '\n' ∉ cs := fun hm => h (List.mem_cons_of_mem c hm)
    simp [splitLines, hc, ih hcs]

/-- Splitting distributes over an explicit newline. -/
theorem splitLines_append (a b : List Char) :
    splitLines (a ++ '\n' :: b) = splitLines a ++ splitLines b := by
  induction a with
  | nil => simp [splitLines]
  | cons c cs ih =>
    by_cases h : c = '\n'
    · simp [splitLines, h, ih]
    · simp only [List.cons_append, splitLines, if_neg h, ih]
      cases hc : splitLines cs with
      | nil => exact absurd hc (splitLines_ne_nil cs)
      | cons l ls =>
        simp only [List.append_eq]
        rw [ih, hc]
        simp

/-- Every line produced by `splitLines` is newline-free. -/
theorem no_newline_of_mem_splitLines :
    ∀ (t : List Char) (s : List Char), s ∈ splitLines t → '\n' ∉ s := by
  intro t
  induction t with
  | nil =>
    intro s hs
    simp [splitLines] at hs
    simp [hs]
  | cons c cs ih =>
    intro s hs
    by_cases h : c = '\n'
    · rw [splitLines, if_pos h] at hs
      rcases List.mem_cons.mp hs with rfl | hm
      · simp
      · exact ih s hm
    · rw [splitLines, if_neg h] at hs
      cases hc : splitLines cs with
      | nil => exact absurd hc (splitLines_ne_nil cs)
      | cons l ls =>
        rw [hc] at hs
        rcases List.mem_cons.mp hs with rfl | hm
        · intro hmem
          rcases List.mem_cons.mp hmem with hEq | hl
          · exact h hEq.symm
          · exact ih l (hc ▸ List.mem_cons_self l ls) hl
        · exact ih s (hc ▸ List.mem_cons_of_mem l hm)

/-- Joining newline-free lines and re-splitting is the identity. -/
theorem splitLines_joinLines :
    ∀ (ls : List (List Char)), ls ≠ [] → (∀ l ∈ ls, '\n' ∉ l) →
      splitLines (joinLines ls) = ls
  | [], h, _ => absurd rfl h
  | [l], _, h => by
    simp only [joinLines]
    exact splitLines_no_newline (h l (by simp))
  | l :: l₂ :: ls, _, h => by
    show splitLines (l ++ '\n' :: joinLines (l₂ :: ls)) = _
    rw [splitLines_append,
      splitLines_joinLines (l₂ :: ls) (by simp) (fun x hx => h x (List.mem_cons_of_mem l hx)),
      splitLines_no_newline (h l (List.mem_cons_self l (l₂ :: ls)))]
    rfl

/-- `dropWhile` is idempotent. -/
theorem dropWhile_idem (p : α → Bool) (l : List α) :
    (l.dropWhile p).dropWhile p = l.dropWhile p := by
  induction l with
  | nil => rfl
  | cons c cs ih =>
    by_cases h : p c
    · simp [List.dropWhile_cons, h, ih]
    · simp [List.dropWhile_cons, h]

/-- Dropping the trailing empty lines twice equals dropping them once. -/
theorem dropTrailingEmptyLines_idem (ls : List (List Char)) :
    dropTrailingEmptyLines (dropTrailingEmptyLines ls) = dropTrailingEmptyLines ls := by
  unfold dropTrailingEmptyLines
  rw [List.reverse_reverse, dropWhile_idem]

/-- Members survive `dropTrailingEmptyLines`. -/
theorem mem_of_mem_dropTrailingEmptyLines {x : List Char} {ls : List (List Char)}
    (h : x ∈ dropTrailingEmptyLines ls) : x ∈ ls := by
  unfold dropTrailingEmptyLines at h
  have h1 : x ∈ ls.reverse.dropWhile (fun l => l.isEmpty) := List.mem_reverse.mp h
  exact List.mem_reverse.mp ((List.dropWhile_sublist _).mem h1)

/-- Trailing-blank-line trimming is idempotent. -/
theorem trimTrailingEmpty_idem (s : List Char) :
    trimTrailingEmpty (trimTrailingEmpty s) = trimTrailingEmpty s := by
  unfold trimTrailingEmpty
  cases hd : dropTrailingEmptyLines (splitLines s) with
  | nil => rfl
  | cons l ls =>
    have hnl : ∀ x ∈ l :: ls, '\n' ∉ x := fun x hx =>
      no_newline_of_mem_splitLines s x (mem_of_mem_dropTrailingEmptyLines (hd ▸ hx))
    rw [splitLines_joinLines _ (by simp) hnl, ← hd, dropTrailingEmptyLines_idem, hd]

/-- C5 (counterexample): the normalizer is not idempotent. A single pass
of the global `ANSI_REGEX` replacement over `"\x1B\x1B[0m[0m"` deletes the
inner `ESC [ 0 m` and splices the leading `ESC` onto the trailing `[0m`,
leaving `"\x1B[0m"`, which a second pass deletes entirely. -/
theorem cleanCapture_not_idempotent :
    cleanCapture (cleanCapture "\x1B\x1B[0m[0m".toList) ≠
      cleanCapture "\x1B\x1B[0m[0m".toList := by decide

/-- C5 (amended): the normalizer is idempotent on every input whose
normalized output contains no further `ANSI_REGEX` match (one strip pass
suffices) — in general the single-pass replacement can splice two split
escape sequences into a new one, so idempotence fails (see
`cleanCapture_not_idempotent`); the trailing-blank-line trim alone is
always idempotent. -/
theorem cleanCapture_conditionally_idempotent (t : List Char)
    (h : stripAnsi (cleanCapture t) = cleanCapture t) :
    cleanCapture (cleanCapture t) = cleanCapture t := by
  show trimTrailingEmpty (stripAnsi (cleanCapture t)) = cleanCapture t
  rw [h]
  show trimTrailingEmpty (trimTrailingEmpty (stripAnsi t)) = cleanCapture t
  rw [trimTrailingEmpty_idem]
  rfl

/-- Witness for the amended C5 on an escape-free input. -/
theorem cleanCapture_conditionally_idempotent_witness :
    cleanCapture (cleanCapture "ok".toList) = cleanCapture "ok".toList :=
  cleanCapture_conditionally_idempotent _ (by decide)

/-! ### Chunking (C6) -/

/-- `chunkLines` distributes over chunk-list concatenation. -/
theorem chunkLines_append (a b : List (List Char)) :
    chunkLines (a ++ b) = chunkLines a ++ chunkLines b := by
  simp [chunkLines]

/-- One `sfdStep` commits a sublist of the processed lines and preserves
every non-empty line. -/
theorem sfdStep_out (maxLen : Nat) (st : List (List Char) × List Char) (l : List Char)
    (hl : '\n' ∉ l) :
    List.Sublist (sfdOut (sfdStep maxLen st l)) (sfdOut st ++ [l]) ∧
    (sfdOut (sfdStep maxLen st l)).filter (fun x => !x.isEmpty) =
      (sfdOut st ++ [l]).filter (fun x => !x.isEmpty) := by
  obtain ⟨chunks, cur⟩ := st
  have hsl : splitLines l = [l] := splitLines_no_newline hl
  by_cases hb : cur.length + l.length + 1 > maxLen
  · have hstep : sfdStep maxLen (chunks, cur) l =
        (chunks ++ (if cur = [] then [] else [cur]), l) := by
      simp only [sfdStep, if_pos hb]
    rw [hstep]
    by_cases hc : cur = [] <;> by_cases hle : l = [] <;>
      simp [sfdOut, hc, hle, chunkLines_append, chunkLines, hsl,
        List.filter_append, List.append_sublist_append_left, List.nil_sublist]
  · have hstep : sfdStep maxLen (chunks, cur) l =
        (chunks, if cur = [] then l else cur ++ '\n' :: l) := by
      simp only [sfdStep, if_neg hb]
    rw [hstep]
    by_cases hc : cur = []
    · by_cases hle : l = [] <;>
        simp [sfdOut, hc, hle, chunkLines, hsl,
          List.filter_append, List.append_sublist_append_left, List.nil_sublist]
    · have hsplit : splitLines (cur ++ '\n' :: l) = splitLines cur ++ [l] := by
        rw [splitLines_append, hsl]
      have hcur : cur ++ '\n' :: l ≠ [] := by simp
      simp [sfdOut, hc, hcur, hsplit, List.filter_append]

/-- The `splitForDiscord` fold commits a sublist of all processed lines
and preserves every non-empty line. -/
theorem sfd_foldl_out (maxLen : Nat) :
    ∀ (ls : List (List Char)) (st : List (List Char) × List Char),
      (∀ l ∈ ls, '\n' ∉ l) →
      List.Sublist (sfdOut (ls.foldl (sfdStep maxLen) st)) (sfdOut st ++ ls) ∧
      (sfdOut (ls.foldl (sfdStep maxLen) st)).filter (fun x => !x.isEmpty) =
        (sfdOut st ++ ls).filter (fun x => !x.isEmpty)
  | [], st, _ => by simp
  | l :: rest, st, h => by
    have hstep := sfdStep_out maxLen st l (h l (List.mem_cons_self l rest))
    have ih := sfd_foldl_out maxLen rest (sfdStep maxLen st l)
      (fun x hx => h x (List.mem_cons_of_mem l hx))
    constructor
    · have h1 : List.Sublist (sfdOut ((l :: rest).foldl (sfdStep maxLen) st))
          ((sfdOut st ++ [l]) ++ rest) :=
        ih.1.trans (hstep.1.append_right rest)
      simpa using h1
    · calc (sfdOut ((l :: rest).foldl (sfdStep maxLen) st)).filter (fun x => !x.isEmpty)
          = (sfdOut (sfdStep maxLen st l) ++ rest).filter (fun x => !x.isEmpty) := ih.2
        _ = (sfdOut (sfdStep maxLen st l)).filter (fun x => !x.isEmpty) ++
              rest.filter (fun x => !x.isEmpty) := List.filter_append ..
        _ = ((sfdOut st ++ [l]).filter (fun x => !x.isEmpty)) ++
              rest.filter (fun x => !x.isEmpty) := by rw [hstep.2]
        _ = (sfdOut st ++ l :: rest).filter (fun x => !x.isEmpty) := by
              cases hpl : (!l.isEmpty) <;>
                simp [List.filter_append, List.filter_cons, hpl]

/-- C6 (counterexample): chunking can lose an empty line. For
`t = "\nabc"` and `maxLen = 2` the empty first line of `t` appears in no
returned chunk, so not every line of `t` appears across the chunk
sequence. -/
theorem splitForDiscord_drops_empty_line :
    ([] : List Char) ∈ splitLines "\nabc".toList ∧
    ([] : List Char) ∉ chunkLines (splitForDiscord "\nabc".toList 2) := by decide

/-- C6 (amended): when `t.length ≤ maxLen`, `splitForDiscord` returns the
single-element sequence `[t]` unchanged (in particular the empty string
yields one empty chunk, never an empty sequence); otherwise the lines
delivered across the chunk sequence form a sublist of the lines of `t` —
each delivered line verbatim and in order, with no chunk boundary inside
a line — and every **non-empty** line of `t` is delivered (empty lines
that fall at a chunk start may be dropped, see
`splitForDiscord_drops_empty_line`). -/
theorem splitForDiscord_chunk_contract (t : List Char) (maxLen : Nat) :
    (t.length ≤ maxLen → splitForDiscord t maxLen = [t]) ∧
    List.Sublist (chunkLines (splitForDiscord t maxLen)) (splitLines t) ∧
    (chunkLines (splitForDiscord t maxLen)).filter (fun x => !x.isEmpty) =
      (splitLines t).filter (fun x => !x.isEmpty) := by
  by_cases h : t.length ≤ maxLen
  · refine ⟨fun _ => by simp [splitForDiscord, h], ?_, ?_⟩ <;>
      simp [splitForDiscord, h, chunkLines]
  · refine ⟨fun h' => absurd h' h, ?_, ?_⟩ <;>
    · have hfold := sfd_foldl_out maxLen (splitLines t) ([], [])
        (no_newline_of_mem_splitLines t)
      have hout : chunkLines (splitForDiscord t maxLen) =
          sfdOut ((splitLines t).foldl (sfdStep maxLen) ([], [])) := by
        simp only [splitForDiscord, if_neg h]
        rw [chunkLines_append]
        by_cases hc : ((splitLines t).foldl (sfdStep maxLen) ([], [])).2 = [] <;>
          simp [sfdOut, hc, chunkLines]
      rw [hout]
      have hbase : sfdOut ([], []) = ([] : List (List Char)) := by simp [sfdOut, chunkLines]
      first
        | · have h1 := hfold.1
            rw [hbase] at h1
            simpa using h1
        | · have h2 := hfold.2
            rw [hbase] at h2
            simpa using h2

/-- Witness for the amended C6: a short text comes back as one chunk. -/
theorem splitForDiscord_chunk_contract_witness :
    splitForDiscord "hi".toList 1900 = ["hi".toList] :=
  (splitForDiscord_chunk_contract _ _).1 (by decide)

/-- C3: `detectState` always returns exactly one of the three
classifications (it is a total function, so it never throws), following
the documented ordering of checks — `offline` iff the current capture is
absent; otherwise `working` iff the previous snapshot is absent or
differs from the current one; `stopped` iff current and previous are
present and equal — and the `stableCount` argument never affects the
result. -/
theorem detectState_total_ordered (c p : Option (List Char)) (n : Int) :
    (detectState c p n = AgentState.offline ∨ detectState c p n = AgentState.working ∨
      detectState c p n = AgentState.stopped) ∧
    (detectState c p n = AgentState.offline ↔ c = none) ∧
    (detectState c p n = AgentState.working ↔ c ≠ none ∧ (p = none ∨ c ≠ p)) ∧
    (detectState c p n = AgentState.stopped ↔ ∃ x, c = some x ∧ p = some x) ∧
    (∀ m : Int, detectState c p n = detectState c p m) := by
  rcases c with _ | x <;> rcases p with _ | y <;> simp [detectState]
  by_cases h : x = y
  · simp [h]
  · simp [h]
    exact fun hyx => h hyx.symm

/-- C4: a tick whose capture fails (offline classification) leaves
`previousCapture`, `lastReportedCapture` and `stableCount` untouched; it
sends the session-ended notice and clears `notifiedWorking` exactly when
`notifiedWorking` was set, and otherwise sends nothing and changes
nothing. -/
theorem tick_offline_frame (st : PollState) :
    (tick st none).1.previousCapture = st.previousCapture ∧
    (tick st none).1.lastReportedCapture = st.lastReportedCapture ∧
    (tick st none).1.stableCount = st.stableCount ∧
    ((tick st none).2 = [Notice.sessionEnded] ∧ (tick st none).1.notifiedWorking = false ↔
      st.notifiedWorking = true) ∧
    (st.notifiedWorking = true →
      tick st none = ({ st with notifiedWorking := false }, [Notice.sessionEnded])) ∧
    (st.notifiedWorking = false → tick st none = (st, [])) := by
  cases h : st.notifiedWorking <;> simp [tick, h]

/-- Witness for C4 at a concrete state with a working notice
outstanding. -/
theorem tick_offline_frame_witness :
    tick { previousCapture := some ['a'], lastReportedCapture := none, stableCount := 3,
           notifiedWorking := true } none =
      ({ previousCapture := some ['a'], lastReportedCapture := none, stableCount := 3,
         notifiedWorking := false }, [Notice.sessionEnded]) :=
  (tick_offline_frame _).2.2.2.2.1 rfl

/-- C1 (code-bug evidence): at the failing input — `stableCount` goes
0 → 1 with a working notice outstanding while the trimmed capture equals
`lastReportedCapture` — the shipped `pollAgent` sends no notification at
all, although the spec (§4.3, `notify("done (no new output)")`),
ARCHITECTURE.md §4.3 (`await this.send(channelId, '✅ 작업 완료')`) and the
repository's own CapturePoller test (`'sends simple completion when
content matches lastReportedCapture'`, which expects `'✅ 작업 완료'`)
all require a completion notice on this tick. -/
theorem completion_repeat_sends_nothing :
    tick { previousCapture := some ['x'], lastReportedCapture := some ['x'],
           stableCount := 0, notifiedWorking := true } (some ['x']) =
      ({ previousCapture := some ['x'], lastReportedCapture := some ['x'],
         stableCount := 1, notifiedWorking := false }, []) := by decide

/-- A tick that leaves the working flag set either sent nothing (and the
flag was already set) or sent exactly the working notice. -/
theorem tick_flag_trace (st : PollState) (raw : Option (List Char)) :
    (tick st raw).1.notifiedWorking = true →
      ((tick st raw).2 = [] ∧ st.notifiedWorking = true) ∨
        (tick st raw).2 = [Notice.working] := by
  cases raw with
  | none =>
    cases h : st.notifiedWorking <;> simp [tick, h]
  | some rawCapture =>
    by_cases hw : detectState (some (cleanCapture rawCapture)) st.previousCapture
        st.stableCount = AgentState.working
    · cases h : st.notifiedWorking <;> simp [tick, hw, h]
    · by_cases hs : st.stableCount = 0 ∧ st.notifiedWorking = true
      · have hw0 : ¬detectState (some (cleanCapture rawCapture)) st.previousCapture 0 =
            AgentState.working := hw
        simp [tick, hw0, hs.1, hs.2]
      · cases h : st.notifiedWorking
        · simp [tick, hw, h]
        · have hs0 : ¬st.stableCount = 0 := fun h0 => hs ⟨h0, h⟩
          simp [tick, hw, h, hs0]

/-- While the working flag is set at the end of a run, the notification
trace is empty (and the flag was set from the start) or ends with the
working notice. -/
theorem run_flag_trace (raws : List (Option (List Char))) :
    ∀ st : PollState, (run st raws).1.notifiedWorking = true →
      (∃ pre, (run st raws).2 = pre ++ [Notice.working]) ∨
        ((run st raws).2 = [] ∧ st.notifiedWorking = true) := by
  induction raws with
  | nil => intro st h; exact Or.inr ⟨rfl, h⟩
  | cons r rs ih =>
    intro st h
    have hflag : (run (tick st r).1 rs).1.notifiedWorking = true := h
    have htr : (run st (r :: rs)).2 = (tick st r).2 ++ (run (tick st r).1 rs).2 := rfl
    rcases ih (tick st r).1 hflag with ⟨pre, hpre⟩ | ⟨hnil, hmid⟩
    · exact Or.inl ⟨(tick st r).2 ++ pre, by rw [htr, hpre, List.append_assoc]⟩
    · rcases tick_flag_trace st r hmid with ⟨hnil2, hstart⟩ | hwork
      · exact Or.inr ⟨by rw [htr, hnil, hnil2]; rfl, hstart⟩
      · exact Or.inl ⟨[], by rw [htr, hnil, hwork]; rfl⟩

/-- C2: the working notice is sent on a tick exactly when the tick
classifies as working while no working notice is outstanding, and that
tick sends nothing but the working notice and sets the flag; a working
tick with the flag already set sends nothing; and over any run from the
fresh state, whenever `notifiedWorking` is set the trace ends with the
working notice — so a working notice was sent and no completion chunk and
no session-ended notice has been sent since. -/
theorem working_notice_once (st : PollState) (raw : Option (List Char)) :
    (Notice.working ∈ (tick st raw).2 ↔
      tickClass st raw = AgentState.working ∧ st.notifiedWorking = false) ∧
    (tickClass st raw = AgentState.working ∧ st.notifiedWorking = false →
      (tick st raw).2 = [Notice.working] ∧ (tick st raw).1.notifiedWorking = true) ∧
    (tickClass st raw = AgentState.working ∧ st.notifiedWorking = true →
      (tick st raw).2 = []) ∧
    (∀ raws, (run defaultPollState raws).1.notifiedWorking = true →
      ∃ pre, (run defaultPollState raws).2 = pre ++ [Notice.working]) := by
  have hrun : ∀ raws, (run defaultPollState raws).1.notifiedWorking = true →
      ∃ pre, (run defaultPollState raws).2 = pre ++ [Notice.working] := by
    intro raws h
    rcases run_flag_trace raws defaultPollState h with hp | ⟨_, hstart⟩
    · exact hp
    · exact absurd hstart (by simp [defaultPollState])
  cases raw with
  | none =>
    refine ⟨?_, ?_, ?_, hrun⟩ <;>
      cases h : st.notifiedWorking <;>
        simp [tick, tickClass, detectState, h]
  | some rawCapture =>
    have hclass : tickClass st (some rawCapture) =
        detectState (some (cleanCapture rawCapture)) st.previousCapture st.stableCount := rfl
    by_cases hw : detectState (some (cleanCapture rawCapture)) st.previousCapture
        st.stableCount = AgentState.working
    · refine ⟨?_, ?_, ?_, hrun⟩ <;>
        cases h : st.notifiedWorking <;>
          simp [tick, hclass, hw, h]
    · have hmem : Notice.working ∉ (tick st (some rawCapture)).2 := by
        by_cases hs : st.stableCount = 0 ∧ st.notifiedWorking = true
        · have hw0 : ¬detectState (some (cleanCapture rawCapture)) st.previousCapture 0 =
              AgentState.working := hw
          simp [tick, hw0, hs.1, hs.2, List.mem_map]
        · cases h : st.notifiedWorking
          · simp [tick, hw, h]
          · have hs0 : ¬st.stableCount = 0 := fun h0 => hs ⟨h0, h⟩
            simp [tick, hw, h, hs0]
      refine ⟨?_, ?_, ?_, hrun⟩
      · simp [hmem, hclass, hw]
      · intro hcontra
        exact absurd (hclass ▸ hcontra.1) hw
      · intro hcontra
        exact absurd (hclass ▸ hcontra.1) hw

/-- Witness for C2: the first capture of a fresh target classifies as
working, sends exactly the working notice and sets the flag. -/
theorem working_notice_once_witness :
    tickClass defaultPollState (some ['a']) = AgentState.working ∧
    (tick defaultPollState (some ['a'])).2 = [Notice.working] ∧
    (tick defaultPollState (some ['a'])).1.notifiedWorking = true := by
  have h := working_notice_once defaultPollState (some ['a'])
  have hc : tickClass defaultPollState (some ['a']) = AgentState.working := by decide
  exact ⟨hc, (h.2.1 ⟨hc, rfl⟩).1, (h.2.1 ⟨hc, rfl⟩).2⟩

/-- C10: `sanitizeInput` returns `none` on empty or whitespace-only input
and on input longer than 10000 characters; on every other input it
returns the input with the null bytes removed, and is the identity when
no null byte occurs. -/
theorem sanitizeInput_spec (content : List Char) :
    (jsTrim content = [] → sanitizeInput content = none) ∧
    (content.length > 10000 → sanitizeInput content = none) ∧
    (jsTrim content ≠ [] → content.length ≤ 10000 →
      sanitizeInput content = some (content.filter fun c => c ≠ '\x00')) ∧
    (jsTrim content ≠ [] → content.length ≤ 10000 → '\x00' ∉ content →
      sanitizeInput content = some content) := by
  have hmain : jsTrim content ≠ [] → content.length ≤ 10000 →
      sanitizeInput content = some (content.filter fun c => c ≠ '\x00') := by
    intro h1 h2
    have he : ¬(content = [] ∨ (jsTrim content).length = 0) := by
      rintro (rfl | hlen)
      · exact h1 rfl
      · exact h1 (List.length_eq_zero.mp hlen)
    unfold sanitizeInput
    rw [if_neg he, if_neg (by omega)]
  refine ⟨fun h => ?_, fun h => ?_, hmain, fun h1 h2 h3 => ?_⟩
  · simp [sanitizeInput, h]
  · by_cases he : content = [] ∨ (jsTrim content).length = 0
    · simp only [sanitizeInput, if_pos he]
    · unfold sanitizeInput
      rw [if_neg he, if_pos h]
  · have hf : (content.filter fun c => c ≠ '\x00') = content :=
      List.filter_eq_self.mpr fun a ha => by
        simp only [ne_eq, decide_eq_true_eq]
        exact fun hEq => h3 (hEq ▸ ha)
    rw [hmain h1 h2, hf]

/-- Witness for C10: a plain short input passes through unchanged. -/
theorem sanitizeInput_spec_witness :
    sanitizeInput "hello".toList = some "hello".toList :=
  (sanitizeInput_spec _).2.2.2 (by decide) (by decide) (by decide)

/-! ### Submission verifier (C7, C8) -/

/-- Specification of the Enter-only retry loop: `k` iterations execute
(each contributing exactly one Enter, one retry-delay sleep and one
capture), where either iteration `k − 1` is the first accepted check, or
no check is accepted and all `n` iterations run. -/
theorem submitRetryLoop_spec (cfg : SubmitConfig) (trimmed : List Char) (isSlash : Bool)
    (captures : Nat → List Char) :
    ∀ (n idx : Nat), ∃ k ≤ n,
      (submitRetryLoop cfg trimmed isSlash captures idx n).2 =
        (List.replicate k (retryBlock cfg)).flatten ∧
      (((submitRetryLoop cfg trimmed isSlash captures idx n).1 = true ∧
          ∃ j < n, k = j + 1 ∧ retryCheck cfg trimmed isSlash captures (idx + j) = true ∧
            ∀ j' < j, retryCheck cfg trimmed isSlash captures (idx + j') = false) ∨
        ((submitRetryLoop cfg trimmed isSlash captures idx n).1 = false ∧ k = n ∧
          ∀ j < n, retryCheck cfg trimmed isSlash captures (idx + j) = false)) := by
  intro n
  induction n with
  | zero =>
    intro idx
    exact ⟨0, Nat.le_refl 0, rfl, Or.inr ⟨rfl, rfl, fun j hj => absurd hj (Nat.not_lt_zero j)⟩⟩
  | succ n ih =>
    intro idx
    by_cases hok : retryCheck cfg trimmed isSlash captures idx = true
    · refine ⟨1, Nat.one_le_iff_ne_zero.mpr (Nat.succ_ne_zero n), ?_, ?_⟩
      · simp [submitRetryLoop, retryCheck] at hok ⊢
        simp [hok, retryBlock]
      · left
        constructor
        · simp [submitRetryLoop, retryCheck] at hok ⊢
          simp [hok]
        · exact ⟨0, Nat.succ_pos n, rfl, by simpa using hok,
            fun j' hj' => absurd hj' (Nat.not_lt_zero j')⟩
    · have hokf : retryCheck cfg trimmed isSlash captures idx = false :=
        Bool.eq_false_iff.mpr (fun h => hok h)
      obtain ⟨k, hk, htr, hd⟩ := ih (idx + 1)
      have hstep1 : (submitRetryLoop cfg trimmed isSlash captures idx (n + 1)).1 =
          (submitRetryLoop cfg trimmed isSlash captures (idx + 1) n).1 := by
        simp only [submitRetryLoop, retryCheck] at hokf ⊢
        simp [hokf]
      have hstep2 : (submitRetryLoop cfg trimmed isSlash captures idx (n + 1)).2 =
          retryBlock cfg ++ (submitRetryLoop cfg trimmed isSlash captures (idx + 1) n).2 := by
        simp only [submitRetryLoop, retryCheck] at hokf ⊢
        simp [hokf, retryBlock]
      refine ⟨k + 1, Nat.succ_le_succ hk, ?_, ?_⟩
      · rw [hstep2, htr, List.replicate_succ, List.flatten_cons]
      · rcases hd with ⟨h1, j, hj, hkj, hcheck, hprev⟩ | ⟨h1, hkn, hall⟩
        · left
          refine ⟨hstep1 ▸ h1, j + 1, Nat.succ_lt_succ hj, by omega, ?_, ?_⟩
          · have : idx + (j + 1) = idx + 1 + j := by omega
            rw [this]; exact hcheck
          · intro j' hj'
            cases j' with
            | zero => simpa using hokf
            | succ j'' =>
              have : idx + (j'' + 1) = idx + 1 + j'' := by omega
              rw [this]
              exact hprev j'' (by omega)
        · right
          refine ⟨hstep1 ▸ h1, by omega, ?_⟩
          intro j hj
          cases j with
          | zero => simpa using hokf
          | succ j'' =>
            have : idx + (j'' + 1) = idx + 1 + j'' := by omega
            rw [this]
            exact hall j'' (by omega)

/-- The acceptance check of attempt `i + 1` is the retry check on capture
`idx0 + 1 + i`. -/
theorem attemptAccepted_succ (cfg : SubmitConfig) (prompt : List Char)
    (captures : Nat → List Char) (j : Nat) :
    attemptAccepted cfg prompt captures (j + 1) =
      retryCheck cfg (jsTrimEnd prompt) (isSlashCommand (jsTrimEnd prompt)) captures
        ((if isSlashCommand (jsTrimEnd prompt) then 1 else 0) + 1 + j) := by
  by_cases hs : isSlashCommand (jsTrimEnd prompt) <;>
    simp [attemptAccepted, retryCheck, hs, Nat.add_comm, Nat.add_assoc, Nat.add_left_comm]

/-- `submitModel` reduced to its first check and the retry loop. -/
theorem submitModel_eq (cfg : SubmitConfig) (prompt : List Char)
    (captures : Nat → List Char) :
    submitModel cfg prompt captures =
      (if attemptAccepted cfg prompt captures 0 then (true, submitPreActs cfg prompt)
       else
         ((submitRetryLoop cfg (jsTrimEnd prompt) (isSlashCommand (jsTrimEnd prompt))
              captures ((if isSlashCommand (jsTrimEnd prompt) then 1 else 0) + 1)
              cfg.retries.toNat).1,
           submitPreActs cfg prompt ++
             (submitRetryLoop cfg (jsTrimEnd prompt) (isSlashCommand (jsTrimEnd prompt))
                captures ((if isSlashCommand (jsTrimEnd prompt) then 1 else 0) + 1)
                cfg.retries.toNat).2)) := by
  by_cases hs : isSlashCommand (jsTrimEnd prompt) <;>
    simp [submitModel, attemptAccepted, submitPreActs, hs]

/-- Full contract of `submitModel`: the action trace is the fixed pre-actions
followed by `k` identical retry blocks for some `k` bounded by the retry
count, and either the accepted attempt is exactly attempt `k` (all earlier
checks failing), or no attempt is accepted, all retries run, and the
result is `false`. -/
theorem submitModel_spec (cfg : SubmitConfig) (prompt : List Char)
    (captures : Nat → List Char) :
    ∃ k ≤ cfg.retries.toNat,
      (submitModel cfg prompt captures).2 =
        submitPreActs cfg prompt ++ (List.replicate k (retryBlock cfg)).flatten ∧
      (((submitModel cfg prompt captures).1 = true ∧
          attemptAccepted cfg prompt captures k = true ∧
          ∀ j < k, attemptAccepted cfg prompt captures j = false) ∨
        ((submitModel cfg prompt captures).1 = false ∧ k = cfg.retries.toNat ∧
          ∀ j ≤ cfg.retries.toNat, attemptAccepted cfg prompt captures j = false)) := by
  by_cases h0 : attemptAccepted cfg prompt captures 0 = true
  · refine ⟨0, Nat.zero_le _, ?_, Or.inl ⟨?_, h0, fun j hj => absurd hj (Nat.not_lt_zero j)⟩⟩
    · rw [submitModel_eq]
      simp [h0]
    · rw [submitModel_eq]
      simp [h0]
  · have h0f : attemptAccepted cfg prompt captures 0 = false :=
      Bool.eq_false_iff.mpr (fun h => h0 h)
    obtain ⟨k, hk, htr, hd⟩ := submitRetryLoop_spec cfg (jsTrimEnd prompt)
      (isSlashCommand (jsTrimEnd prompt)) captures cfg.retries.toNat
      ((if isSlashCommand (jsTrimEnd prompt) then 1 else 0) + 1)
    refine ⟨k, hk, ?_, ?_⟩
    · rw [submitModel_eq]
      simp [h0f, htr]
    · rcases hd with ⟨h1, j, hj, hkj, hcheck, hprev⟩ | ⟨h1, hkn, hall⟩
      · left
        refine ⟨?_, ?_, ?_⟩
        · rw [submitModel_eq]; simp [h0f, h1]
        · rw [hkj, attemptAccepted_succ]
          exact hcheck
        · intro j2 hj2
          cases j2 with
          | zero => exact h0f
          | succ j' =>
            rw [attemptAccepted_succ]
            exact hprev j' (by omega)
      · right
        refine ⟨?_, hkn, ?_⟩
        · rw [submitModel_eq]; simp [h0f, h1]
        · intro j hj
          cases j with
          | zero => exact h0f
          | succ j' =>
            rw [attemptAccepted_succ]
            exact hall j' (by omega)

/-- The flatten of `k` retry blocks contains no `typeKeys` action. -/
theorem retry_flatten_no_typeKeys (cfg : SubmitConfig) (k : Nat) :
    ((List.replicate k (retryBlock cfg)).flatten).filter isTypeKeysAct = [] := by
  induction k with
  | zero => rfl
  | succ n ih =>
    simp only [List.replicate_succ, List.flatten_cons, List.filter_append, ih]
    simp [retryBlock, isTypeKeysAct]

/-- The flatten of `k` retry blocks contains exactly `k` Enter presses. -/
theorem retry_flatten_enter_count (cfg : SubmitConfig) (k : Nat) :
    (((List.replicate k (retryBlock cfg)).flatten).filter isEnterAct).length = k := by
  induction k with
  | zero => rfl
  | succ n ih =>
    simp only [List.replicate_succ, List.flatten_cons, List.filter_append,
      List.length_append, ih]
    simp [retryBlock, isEnterAct]
    omega

/-- The pre-actions contain exactly one `typeKeys`, carrying the trimmed
prompt. -/
theorem preActs_typeKeys (cfg : SubmitConfig) (prompt : List Char) :
    (submitPreActs cfg prompt).filter isTypeKeysAct =
      [TmuxAction.typeKeys (jsTrimEnd prompt)] := by
  by_cases hs : isSlashCommand (jsTrimEnd prompt) <;>
    simp [submitPreActs, hs, isTypeKeysAct]

/-- The pre-actions contain exactly one Enter press. -/
theorem preActs_enter_count (cfg : SubmitConfig) (prompt : List Char) :
    ((submitPreActs cfg prompt).filter isEnterAct).length = 1 := by
  by_cases hs : isSlashCommand (jsTrimEnd prompt) <;>
    simp [submitPreActs, hs, isEnterAct]

/-- C7: `submit` types the prompt exactly once — the whole action trace
holds exactly one `typeKeys`, carrying the trimmed prompt, sitting in the
fixed pre-actions; each of the `k ≤ retries` executed retries contributes
exactly one Enter press (with the configured retry-delay sleep between
the press and its re-check), so Enter is pressed `1 + k ≤ 1 + retries`
times; the result is `true` exactly when the accepted check is attempt
`k` with all earlier checks failing (so the loop stops at the first
acceptance), and `false` exactly when all `retries` retries ran with
every check failing. -/
theorem submit_contract (cfg : SubmitConfig) (prompt : List Char)
    (captures : Nat → List Char) :
    ∃ k, k ≤ cfg.retries.toNat ∧
      (submitModel cfg prompt captures).2 =
        submitPreActs cfg prompt ++ (List.replicate k (retryBlock cfg)).flatten ∧
      (submitModel cfg prompt captures).2.filter isTypeKeysAct =
        [TmuxAction.typeKeys (jsTrimEnd prompt)] ∧
      ((submitModel cfg prompt captures).2.filter isEnterAct).length = 1 + k ∧
      (((submitModel cfg prompt captures).1 = true ∧
          attemptAccepted cfg prompt captures k = true ∧
          ∀ j < k, attemptAccepted cfg prompt captures j = false) ∨
        ((submitModel cfg prompt captures).1 = false ∧ k = cfg.retries.toNat ∧
          ∀ j ≤ cfg.retries.toNat, attemptAccepted cfg prompt captures j = false)) := by
  obtain ⟨k, hk, htr, hd⟩ := submitModel_spec cfg prompt captures
  refine ⟨k, hk, htr, ?_, ?_, hd⟩
  · rw [htr, List.filter_append, preActs_typeKeys, retry_flatten_no_typeKeys]
    rfl
  · rw [htr, List.filter_append, List.length_append, preActs_enter_count,
      retry_flatten_enter_count]

/-- Witness for C7: an echoed prompt is accepted on the first attempt. -/
theorem submit_contract_witness :
    (submitModel defaultSubmitConfig "hi".toList (fun _ => "› hi".toList)).1 = true := by
  obtain ⟨k, hk, htr, hty, hen, hd⟩ :=
    submit_contract defaultSubmitConfig "hi".toList (fun _ => "› hi".toList)
  rcases hd with ⟨h1, -, -⟩ | ⟨-, -, hall⟩
  · exact h1
  · have h0 : attemptAccepted defaultSubmitConfig "hi".toList
        (fun _ => "› hi".toList) 0 = true := by decide
    have hf := hall 0 (Nat.zero_le _)
    rw [hf] at h0
    simp at h0

/-- For a slash command every attempt — including the first, whose
`(typedHad && !afterHas) || !afterHas` condition collapses to
`!afterHas` — is accepted exactly when the needle is absent from the
post-submit capture tail. -/
theorem attemptAccepted_slash (cfg : SubmitConfig) (prompt : List Char)
    (captures : Nat → List Char) (hs : isSlashCommand (jsTrimEnd prompt) = true) (i : Nat) :
    attemptAccepted cfg prompt captures i =
      !(captureContainsNeedle cfg (captures (1 + i)) (jsTrimEnd prompt)) := by
  cases i with
  | zero =>
    simp only [attemptAccepted, hs, if_true, if_pos rfl]
    cases hafter : captureContainsNeedle cfg (captures (1 + 0)) (jsTrimEnd prompt) <;>
      cases htyped : (if captures 0 = [] then false
          else captureContainsNeedle cfg (captures 0) (jsTrimEnd prompt)) <;>
        simp_all
  | succ j =>
    simp only [attemptAccepted, hs, if_true]
    simp

/-- `submitModel` returns `true` exactly when some attempt within the
retry budget is accepted. -/
theorem submitModel_true_iff (cfg : SubmitConfig) (prompt : List Char)
    (captures : Nat → List Char) :
    (submitModel cfg prompt captures).1 = true ↔
      ∃ i ≤ cfg.retries.toNat, attemptAccepted cfg prompt captures i = true := by
  obtain ⟨k, hk, -, hd⟩ := submitModel_spec cfg prompt captures
  constructor
  · intro h
    rcases hd with ⟨-, hacc, -⟩ | ⟨hfalse, -, -⟩
    · exact ⟨k, hk, hacc⟩
    · rw [h] at hfalse
      cases hfalse
  · rintro ⟨i, hi, hacc⟩
    rcases hd with ⟨htrue, -, -⟩ | ⟨-, -, hall⟩
    · exact htrue
    · rw [hall i hi] at hacc
      cases hacc

/-- C8 (counterexample): for the slash command `"/a  b"` (two inner
spaces) whose post-submit captures are all `"/a b"`, the typed text is
never present verbatim in the capture tail, yet `submit` returns `false`
— the code matches the whitespace-collapsed 32-character needle
(`"/a b"`), which is present, not the verbatim typed text. -/
theorem slash_verbatim_claim_false :
    ((submitTailLines defaultSubmitConfig "/a b".toList 20).any fun line =>
      containsSub (jsTrimEnd "/a  b".toList) line) = false ∧
    (submitModel defaultSubmitConfig "/a  b".toList (fun _ => "/a b".toList)).1 = false := by
  decide

/-- C8 (amended): for a slash command, an attempt is accepted iff the
needle — the whitespace-collapsed trimmed typed text truncated to 32
characters — is absent from the tail of the post-submit capture (for
typed text of at most 32 characters with no collapsible whitespace the
needle is the typed text itself); `submit` returns `true` iff some
attempt within the retry budget passes this test, and when the needle is
already absent after the first Enter, `submit` returns `true` on the
first attempt with no retries issued. -/
theorem slash_accepted_iff_needle_absent (cfg : SubmitConfig) (prompt : List Char)
    (captures : Nat → List Char) (hs : isSlashCommand (jsTrimEnd prompt) = true) :
    ((submitModel cfg prompt captures).1 = true ↔
      ∃ i ≤ cfg.retries.toNat,
        captureContainsNeedle cfg (captures (1 + i)) (jsTrimEnd prompt) = false) ∧
    (captureContainsNeedle cfg (captures 1) (jsTrimEnd prompt) = false →
      (submitModel cfg prompt captures).1 = true ∧
      (submitModel cfg prompt captures).2 = submitPreActs cfg prompt) := by
  constructor
  · rw [submitModel_true_iff]
    constructor
    · rintro ⟨i, hi, hacc⟩
      rw [attemptAccepted_slash cfg prompt captures hs] at hacc
      exact ⟨i, hi, by simpa using hacc⟩
    · rintro ⟨i, hi, habs⟩
      refine ⟨i, hi, ?_⟩
      rw [attemptAccepted_slash cfg prompt captures hs, habs]
      rfl
  · intro habs
    have h0 : attemptAccepted cfg prompt captures 0 = true := by
      rw [attemptAccepted_slash cfg prompt captures hs]
      simpa using habs
    obtain ⟨k, hk, htr, hd⟩ := submitModel_spec cfg prompt captures
    rcases hd with ⟨htrue, -, hprev⟩ | ⟨-, -, hall⟩
    · refine ⟨htrue, ?_⟩
      have hk0 : k = 0 := by
        by_contra hne
        have h0f := hprev 0 (Nat.pos_of_ne_zero hne)
        rw [h0f] at h0
        cases h0
      rw [htr, hk0]
      simp
    · have h0f := hall 0 (Nat.zero_le _)
      rw [h0f] at h0
      cases h0

/-- Witness for the amended C8: Scenario E — `/help` typed, consumed
without echo — is accepted on the first attempt with no retries. -/
theorem slash_accepted_iff_needle_absent_witness :
    (submitModel defaultSubmitConfig "/help".toList
      (fun n => if n = 0 then "  /help".toList else "Some help output...".toList)).1 = true :=
  ((slash_accepted_iff_needle_absent defaultSubmitConfig "/help".toList
    (fun n => if n = 0 then "  /help".toList else "Some help output...".toList)
    (by decide)).2 (by decide)).1

/-! ### Poll loop (C9) -/

/-- C9: the poll loop records, for every project in order and every
enabled, non-event-hooked agent entry, exactly that target's own outcome
— an `Except.error` models an exception caught and logged by the
per-target try/catch — so a failing target never prevents any other
eligible target from being polled; disabled and event-hooked entries and
entries of other shapes produce nothing; and a target with no configured
channel id returns from `pollAgent` before capturing, sending no
notification and leaving its state untouched. -/
theorem pollAll_isolation (projects : List ProjectStateM)
    (pollAgent : List Char → List Char → Except Unit (List Notice)) :
    (∀ p ∈ projects, ∀ a b, (a, b) ∈ p.agents → b = true → p.eventHooks a = false →
      (p.projectName, a, pollAgent p.projectName a) ∈ pollAll projects pollAgent) ∧
    (∀ pn a r, (pn, a, r) ∈ pollAll projects pollAgent →
      ∃ p ∈ projects, p.projectName = pn ∧ (a, true) ∈ p.agents ∧
        p.eventHooks a = false ∧ r = pollAgent pn a) ∧
    (∀ (p : ProjectStateM) (agentType : List Char) (st : PollState)
        (raw : Option (List Char)), p.discordChannels agentType = none →
      pollAgentTick p agentType st raw = (st, [])) := by
  refine ⟨?_, ?_, ?_⟩
  · intro p hp a b hab hb hhook
    subst hb
    refine List.mem_flatMap.mpr ⟨p, hp, List.mem_filterMap.mpr ⟨(a, true), hab, ?_⟩⟩
    simp [hhook]
  · intro pn a r hmem
    obtain ⟨p, hp, hfm⟩ := List.mem_flatMap.mp hmem
    obtain ⟨e, he, hfe⟩ := List.mem_filterMap.mp hfm
    by_cases hb : e.2 = true
    · by_cases hhook : p.eventHooks e.1 = true
      · rw [if_neg (by simp [hb]), if_pos hhook] at hfe
        cases hfe
      · have hhook' : p.eventHooks e.1 = false := Bool.eq_false_iff.mpr hhook
        rw [if_neg (by simp [hb]), if_neg (by simp [hhook'])] at hfe
        rw [Option.some_inj] at hfe
        obtain ⟨h1, h23⟩ := Prod.ext_iff.mp hfe
        obtain ⟨h2, h3⟩ := Prod.ext_iff.mp h23
        obtain ⟨ea, eb⟩ := e
        simp only at h1 h2 h3 hb hhook'
        subst hb
        subst h2
        subst h1
        subst h3
        exact ⟨p, hp, rfl, he, hhook', rfl⟩
    · rw [if_pos (by simp [Bool.eq_false_iff.mpr hb])] at hfe
      cases hfe
  · intro p agentType st raw h
    simp [pollAgentTick, h]

/-- Witness for C9: with two projects where the first target's poll
raises, the second target is still polled and its outcome recorded. -/
theorem pollAll_isolation_witness :
    ("p2".toList, "claude".toList, Except.ok ([] : List Notice)) ∈
      pollAll
        [⟨"p1".toList, [("claude".toList, true)], fun _ => false, fun _ => none⟩,
         ⟨"p2".toList, [("claude".toList, true)], fun _ => false, fun _ => none⟩]
        (fun pn _ => if pn = "p1".toList then Except.error () else Except.ok []) := by
  have h := (pollAll_isolation
    [⟨"p1".toList, [("claude".toList, true)], fun _ => false, fun _ => none⟩,
     ⟨"p2".toList, [("claude".toList, true)], fun _ => false, fun _ => none⟩]
    (fun pn _ => if pn = "p1".toList then Except.error () else Except.ok [])).1
    ⟨"p2".toList, [("claude".toList, true)], fun _ => false, fun _ => none⟩
    (List.mem_cons_of_mem _ (List.mem_cons_self _ _))
    "claude".toList true (List.mem_cons_self _ _) rfl rfl
  simpa using h

end Bridge
